import Mathlib

/-!
Verification of the generic Neo4j upsert/mirroring protocol of
`src/db/models.py` (project-graph).

The embedding models the property-graph store that the Cypher queries issued
by `merge_person`, `merge_relationship` and `create_constraints` act on.

Cypher semantics modelled faithfully:
* `MERGE (n:L {id: $id})` matches any node with label `L` whose `id`
  property equals `$id`; if none matches, it creates a node carrying
  exactly the label and the `id` property.
* `MERGE (a)-[r:T {k1: $k1, ...}]->(b)` matches any `T` edge between the
  two endpoint keys whose properties *include* every pattern key with the
  given value; if none matches it creates an edge carrying exactly the
  pattern's properties.  (The property bag is part of the MERGE pattern in
  the source, not a separate SET clause.)
* `SET n.f = $v, ...` overwrites the listed fields on every matched node.
-/

/-- Property values stored in the graph (string, integer, boolean, the
result of the Cypher `date(...)` coercion, and null). -/
inductive Val where
  | str (s : String)
  | num (n : Int)
  | bool (b : Bool)
  | date (s : String)
  | null
deriving DecidableEq, Repr

/-- A property bag: an association list with (by construction, for bags
coming from Python dicts) pairwise distinct keys. -/
abbrev Props := List (String × Val)

/-- Look up a key in a property bag (first occurrence). -/
def getProp : Props → String → Option Val
  | [], _ => none
  | (k0, v) :: rest, k => if k0 = k then some v else getProp rest k

/-- Overwrite a key in a property bag (append if absent). -/
def setProp : Props → String → Val → Props
  | [], k, v => [(k, v)]
  | (k0, v0) :: rest, k, v =>
      if k0 = k then (k, v) :: rest else (k0, v0) :: setProp rest k v

/-- Apply a list of `SET` assignments left to right. -/
def applySets (ps : Props) (kvs : Props) : Props :=
  kvs.foldl (fun a kv => setProp a kv.1 kv.2) ps

/-- The keys of a property bag are pairwise distinct (true of every bag
obtained from a Python dict). -/
def keysNodup (ps : Props) : Prop := (ps.map Prod.fst).Nodup

instance (ps : Props) : Decidable (keysNodup ps) :=
  inferInstanceAs (Decidable (List.Nodup _))

/-- A stored node: one label plus a property bag (the `id` property is part
of the bag, as Cypher stores it). -/
structure Node where
  label : String
  props : Props
deriving DecidableEq, Repr

/-- A stored directed edge between two node keys. -/
structure Edge where
  type : String
  fromLabel : String
  fromId : String
  toLabel : String
  toId : String
  props : Props
deriving DecidableEq, Repr

/-- The graph store: nodes and edges, in creation order. -/
structure Graph where
  nodes : List Node
  edges : List Edge
deriving DecidableEq, Repr

/-- The empty store. -/
def Graph.empty : Graph := ⟨[], []⟩

/-- A node matches the pattern `(n:label {id: id})`. -/
def NodeMatches (n : Node) (label id : String) : Prop :=
  n.label = label ∧ getProp n.props "id" = some (Val.str id)

instance (n : Node) (label id : String) : Decidable (NodeMatches n label id) :=
  inferInstanceAs (Decidable (_ ∧ _))

/-- An edge matches a type and endpoint-key pattern. -/
def EdgeMatches (e : Edge) (t fl fid tl tid : String) : Prop :=
  e.type = t ∧ e.fromLabel = fl ∧ e.fromId = fid ∧ e.toLabel = tl ∧ e.toId = tid

instance (e : Edge) (t fl fid tl tid : String) :
    Decidable (EdgeMatches e t fl fid tl tid) :=
  inferInstanceAs (Decidable (_ ∧ _ ∧ _ ∧ _ ∧ _))

/-- Cypher pattern-inclusion: every key of the pattern is present on the
edge with the given value (extra edge properties are allowed). -/
def matchesProps (eps pattern : Props) : Prop :=
  ∀ kv ∈ pattern, getProp eps kv.1 = some kv.2

instance (eps pattern : Props) : Decidable (matchesProps eps pattern) :=
  inferInstanceAs (Decidable (∀ kv ∈ pattern, getProp eps kv.1 = some kv.2))

/-- Some node matching `(label {id})` exists in the store. -/
def NodeExists (g : Graph) (label id : String) : Prop :=
  ∃ n ∈ g.nodes, NodeMatches n label id

instance (g : Graph) (label id : String) : Decidable (NodeExists g label id) :=
  inferInstanceAs (Decidable (∃ n ∈ g.nodes, NodeMatches n label id))

/-- Some edge matching the full MERGE pattern (type, endpoints, property
inclusion) exists in the store. -/
def HasEdge (g : Graph) (t fl fid tl tid : String) (pattern : Props) : Prop :=
  ∃ e ∈ g.edges, EdgeMatches e t fl fid tl tid ∧ matchesProps e.props pattern

instance (g : Graph) (t fl fid tl tid : String) (pattern : Props) :
    Decidable (HasEdge g t fl fid tl tid pattern) :=
  inferInstanceAs (Decidable (∃ e ∈ g.edges, _ ∧ _))

/-- Number of nodes matching `(label {id})`. -/
def countNodes (g : Graph) (label id : String) : Nat :=
  g.nodes.countP (fun n => decide (NodeMatches n label id))

/-- Number of edges of a given type between two endpoint keys. -/
def countEdges (g : Graph) (t fl fid tl tid : String) : Nat :=
  g.edges.countP (fun e => decide (EdgeMatches e t fl fid tl tid))

/-- Property bag of the first node matching `(label {id})`, if any. -/
def findNodeProps (g : Graph) (label id : String) : Option Props :=
  (g.nodes.find? (fun n => decide (NodeMatches n label id))).map Node.props

/-- A single property of the first node matching `(label {id})`. -/
def getNodeProp (g : Graph) (label id key : String) : Option Val :=
  (findNodeProps g label id).bind (fun ps => getProp ps key)

/-- Semantics of the clause `MERGE (n:label {id: $id})`: match, or create a
bare node carrying only the label and the id property. -/
def mergeNode (g : Graph) (label id : String) : Graph :=
  if NodeExists g label id then g
  else { g with nodes := g.nodes ++ [⟨label, [("id", Val.str id)]⟩] }

/-- Semantics of `SET n.f1 = $v1, ...` on every node matched by
`(n:label {id: $id})`. -/
def setNodeProps (g : Graph) (label id : String) (kvs : Props) : Graph :=
  { g with
    nodes := g.nodes.map (fun n =>
      if NodeMatches n label id then { n with props := applySets n.props kvs }
      else n) }

/-- Semantics of `MERGE (from)-[r:t {pattern}]->(to)` between two already
merged endpoint keys: match by pattern inclusion, or create an edge
carrying exactly the pattern's properties. -/
def mergeEdge (g : Graph) (t fl fid tl tid : String) (pattern : Props) : Graph :=
  if HasEdge g t fl fid tl tid pattern then g
  else { g with edges := g.edges ++ [⟨t, fl, fid, tl, tid, pattern⟩] }

/-- The `BIDIRECTIONAL_RELATIONSHIPS` dict of `src/db/models.py`, as an
association list in source order.  The source dict literal repeats the key
`"PART_OF"` (layer 2 and layer 7) with the same value `"CONTAINS"`; a
Python dict keeps a single entry for it, listed here once. -/
def BIDIRECTIONAL_RELATIONSHIPS : List (String × String) :=
  [ ("MEMBER_OF", "MEMBER_OF"),
    ("REPORTS_TO", "MANAGES"),
    ("MANAGES", "MANAGED_BY"),
    ("MAPS_TO", "MAPS_TO"),
    ("PART_OF", "CONTAINS"),
    ("ASSIGNED_TO", "ASSIGNED_TO"),
    ("REPORTED_BY", "REPORTED_BY"),
    ("TEAM", "TEAM"),
    ("IN_SPRINT", "CONTAINS"),
    ("BLOCKS", "BLOCKED_BY"),
    ("DEPENDS_ON", "DEPENDENCY_OF"),
    ("RELATES_TO", "RELATES_TO"),
    ("COLLABORATOR", "COLLABORATOR"),
    ("BRANCH_OF", "BRANCH_OF"),
    ("AUTHORED_BY", "AUTHORED_BY"),
    ("MODIFIES", "MODIFIED_BY"),
    ("REFERENCES", "REFERENCED_BY"),
    ("INCLUDES", "INCLUDED_IN"),
    ("TARGETS", "TARGETED_BY"),
    ("CREATED_BY", "CREATED"),
    ("REVIEWED_BY", "REVIEWED"),
    ("REQUESTED_REVIEWER", "REVIEW_REQUESTED_BY"),
    ("MERGED_BY", "MERGED") ]

/-- Dict lookup `BIDIRECTIONAL_RELATIONSHIPS[rel_type]` (with the
membership test `rel_type in BIDIRECTIONAL_RELATIONSHIPS` as `isSome`). -/
def bidirLookup (t : String) : Option String :=
  List.lookup t BIDIRECTIONAL_RELATIONSHIPS

/-- The `Relationship` dataclass: `(type, from_id, to_id, from_type,
to_type, properties)`, with `properties` defaulting to the empty dict. -/
structure Relationship where
  type : String
  from_id : String
  to_id : String
  from_type : String
  to_type : String
  properties : Props
deriving DecidableEq, Repr

/-- Embedding of `merge_relationship` (src/db/models.py).  The forward
query is `MERGE (from:{from_type} {id:$from_id}) MERGE (to:{to_type}
{id:$to_id}) MERGE (from)-[r:{rel_type} {props}]->(to)`; when `rel_type`
is a key of `BIDIRECTIONAL_RELATIONSHIPS` a reverse query is run with the
endpoints swapped and the mirror type.  The source builds the same query
string in the symmetric and asymmetric branches; the `if` is kept to
mirror the source's structure. -/
def merge_relationship (g : Graph) (r : Relationship) : Graph :=
  let g1 := mergeNode g r.from_type r.from_id
  let g2 := mergeNode g1 r.to_type r.to_id
  let g3 := mergeEdge g2 r.type r.from_type r.from_id r.to_type r.to_id r.properties
  match bidirLookup r.type with
  | none => g3
  | some reverse_type =>
      if r.type = reverse_type then
        mergeEdge (mergeNode (mergeNode g3 r.to_type r.to_id) r.from_type r.from_id)
          reverse_type r.to_type r.to_id r.from_type r.from_id r.properties
      else
        mergeEdge (mergeNode (mergeNode g3 r.to_type r.to_id) r.from_type r.from_id)
          reverse_type r.to_type r.to_id r.from_type r.from_id r.properties

/-- The forward edge written by `merge_relationship` when no matching edge
exists. -/
def fwdEdge (r : Relationship) : Edge :=
  ⟨r.type, r.from_type, r.from_id, r.to_type, r.to_id, r.properties⟩

/-- The mirror edge written by `merge_relationship` for a registered type
with mirror `M` when no matching edge exists: endpoints reversed, same
property bag. -/
def mirrorEdge (r : Relationship) (M : String) : Edge :=
  ⟨M, r.to_type, r.to_id, r.from_type, r.from_id, r.properties⟩

/-- The `Person` dataclass. -/
structure Person where
  id : String
  name : String
  email : String
  title : String
  role : String
  seniority : String
  hire_date : String
  is_manager : Bool
deriving DecidableEq, Repr

/-- The `SET` list issued by `merge_person`: every field except `id` is
written, except that `hire_date` is only written (as a Cypher date) when
it is non-empty — the source picks one of two query strings based on the
Python truthiness of `props.get('hire_date')`. -/
def personSetFields (p : Person) : Props :=
  if p.hire_date ≠ "" then
    [ ("name", Val.str p.name),
      ("email", Val.str p.email),
      ("title", Val.str p.title),
      ("role", Val.str p.role),
      ("seniority", Val.str p.seniority),
      ("hire_date", Val.date p.hire_date),
      ("is_manager", Val.bool p.is_manager) ]
  else
    [ ("name", Val.str p.name),
      ("email", Val.str p.email),
      ("title", Val.str p.title),
      ("role", Val.str p.role),
      ("seniority", Val.str p.seniority),
      ("is_manager", Val.bool p.is_manager) ]

/-- The node-write part of `merge_person`: `MERGE (p:Person {id: $id})`
followed by the `SET` clause. -/
def merge_person_node (g : Graph) (p : Person) : Graph :=
  setNodeProps (mergeNode g "Person" p.id) "Person" p.id (personSetFields p)

/-- Embedding of `merge_person`: the node write, then (when a relationship
list is supplied) one `merge_relationship` per element in order.  A `some
[]` list behaves like `none`, as Python's `if relationships:` is false for
an empty list. -/
def merge_person (g : Graph) (p : Person) (relationships : Option (List Relationship)) : Graph :=
  let g1 := merge_person_node g p
  match relationships with
  | none => g1
  | some rels => rels.foldl merge_relationship g1

/-- The `all_constraints` dict of `create_constraints`, layer by layer in
source order. -/
def all_constraints : List (Nat × List String) :=
  [ (1, [ "CREATE CONSTRAINT person_id IF NOT EXISTS FOR (p:Person) REQUIRE p.id IS UNIQUE",
          "CREATE CONSTRAINT team_id IF NOT EXISTS FOR (t:Team) REQUIRE t.id IS UNIQUE",
          "CREATE CONSTRAINT identity_id IF NOT EXISTS FOR (i:IdentityMapping) REQUIRE i.id IS UNIQUE" ]),
    (2, [ "CREATE CONSTRAINT project_id IF NOT EXISTS FOR (p:Project) REQUIRE p.id IS UNIQUE",
          "CREATE CONSTRAINT initiative_id IF NOT EXISTS FOR (i:Initiative) REQUIRE i.id IS UNIQUE" ]),
    (3, [ "CREATE CONSTRAINT epic_id IF NOT EXISTS FOR (e:Epic) REQUIRE e.id IS UNIQUE" ]),
    (4, [ "CREATE CONSTRAINT issue_id IF NOT EXISTS FOR (i:Issue) REQUIRE i.id IS UNIQUE",
          "CREATE CONSTRAINT sprint_id IF NOT EXISTS FOR (s:Sprint) REQUIRE s.id IS UNIQUE" ]),
    (5, [ "CREATE CONSTRAINT repository_id IF NOT EXISTS FOR (r:Repository) REQUIRE r.id IS UNIQUE" ]),
    (6, [ "CREATE CONSTRAINT branch_id IF NOT EXISTS FOR (b:Branch) REQUIRE b.id IS UNIQUE" ]),
    (7, [ "CREATE CONSTRAINT commit_id IF NOT EXISTS FOR (c:Commit) REQUIRE c.id IS UNIQUE",
          "CREATE CONSTRAINT commit_sha IF NOT EXISTS FOR (c:Commit) REQUIRE c.sha IS UNIQUE",
          "CREATE CONSTRAINT file_id IF NOT EXISTS FOR (f:File) REQUIRE f.id IS UNIQUE" ]),
    (8, [ "CREATE CONSTRAINT pull_request_id IF NOT EXISTS FOR (pr:PullRequest) REQUIRE pr.id IS UNIQUE" ]) ]

/-- The constraint list selected by the `layers` argument: `none` takes
every layer's list in order; a given list of layer numbers takes each
requested layer's list, skipping unknown layer numbers. -/
def constraintsFor : Option (List Nat) → List String
  | none => (all_constraints.map Prod.snd).flatten
  | some layers =>
      (layers.map (fun l =>
        (((all_constraints.find? (fun lc => lc.1 == l)).map Prod.snd).getD []))).flatten

/-- Whether the character list `needle` starts the character list `hay`. -/
def charsStartWith : List Char → List Char → Bool
  | [], _ => true
  | _ :: _, [] => false
  | c :: cs, d :: ds => c == d && charsStartWith cs ds

/-- Whether the character list `needle` occurs inside `hay`. -/
def charsContain (needle : List Char) : List Char → Bool
  | [] => charsStartWith needle []
  | d :: ds => charsStartWith needle (d :: ds) || charsContain needle ds

/-- Python's `needle in hay` on strings. -/
def containsSubstr (hay needle : String) : Bool :=
  charsContain needle.data hay.data

/-- Python's `str.lower()`, character by character. -/
def pyLower (s : String) : String :=
  ⟨s.data.map Char.toLower⟩

/-- The suppression test of `create_constraints`:
`"already exists" in str(e).lower()`. -/
def isAlreadyExists (e : String) : Bool :=
  containsSubstr (pyLower e) "already exists"

/-- The constraint-issuing loop of `create_constraints`: run each
declaration; an error whose message contains "already exists" (case
insensitively) is suppressed and the loop continues; any other error is
re-raised, aborting the loop. -/
def runConstraints (store : String → Except String Unit) : List String → Except String Unit
  | [] => Except.ok ()
  | c :: rest =>
      match store c with
      | Except.ok _ => runConstraints store rest
      | Except.error e =>
          if isAlreadyExists e then runConstraints store rest
          else Except.error e

/-- Embedding of `create_constraints`, over an abstract store
(`session.run` on a constraint declaration either succeeds or raises an
exception with a message). -/
def create_constraints (store : String → Except String Unit)
    (layers : Option (List Nat)) : Except String Unit :=
  runConstraints store (constraintsFor layers)

/-- The relationship-cascade loop of the node merge functions, over a
fallible relationship write: each successful write commits its state; the
first failing write aborts the loop, returning the error together with the
state already committed at that point (the store auto-commits each query,
so nothing is rolled back). -/
def mergeRelsExc (f : Graph → Relationship → Except String Graph) :
    Graph → List Relationship → Except (String × Graph) Graph
  | g, [] => Except.ok g
  | g, r :: rs =>
      match f g r with
      | Except.ok g2 => mergeRelsExc f g2 rs
      | Except.error e => Except.error (e, g)

/-- Embedding of `merge_person` over a fallible relationship write: the
node write runs first, then the cascade loop. -/
def merge_person_exc (f : Graph → Relationship → Except String Graph)
    (g : Graph) (p : Person) (relationships : Option (List Relationship)) :
    Except (String × Graph) Graph :=
  match relationships with
  | none => Except.ok (merge_person_node g p)
  | some rels => mergeRelsExc f (merge_person_node g p) rels

/-! ### Property-bag lemmas -/

theorem getProp_setProp_self (ps : Props) (k : String) (v : Val) :
    getProp (setProp ps k v) k = some v := by
  induction ps with
  | nil => simp [setProp, getProp]
  | cons head tail ih =>
      obtain ⟨k0, v0⟩ := head
      by_cases h : k0 = k
      · subst h; simp [setProp, getProp]
      · simp [setProp, h, getProp, ih]

theorem getProp_setProp_ne (ps : Props) (k0 k : String) (v : Val) (h : k0 ≠ k) :
    getProp (setProp ps k0 v) k = getProp ps k := by
  induction ps with
  | nil => simp [setProp, getProp, h]
  | cons head tail ih =>
      obtain ⟨k1, v1⟩ := head
      by_cases h1 : k1 = k0
      · subst h1; simp [setProp, getProp, h]
      · simp [setProp, h1, getProp, ih]

theorem applySets_cons (ps : Props) (kv : String × Val) (kvs : Props) :
    applySets ps (kv :: kvs) = applySets (setProp ps kv.1 kv.2) kvs := rfl

theorem getProp_applySets_not_mem (ps kvs : Props) (k : String)
    (h : k ∉ kvs.map Prod.fst) : getProp (applySets ps kvs) k = getProp ps k := by
  induction kvs generalizing ps with
  | nil => rfl
  | cons kv rest ih =>
      simp only [List.map_cons, List.mem_cons] at h
      push_neg at h
      rw [applySets_cons, ih _ h.2, getProp_setProp_ne _ _ _ _ (fun e => h.1 e.symm)]

theorem getProp_applySets_mem (ps kvs : Props) (k : String) (v : Val)
    (hnd : keysNodup kvs) (hm : (k, v) ∈ kvs) :
    getProp (applySets ps kvs) k = some v := by
  induction kvs generalizing ps with
  | nil => cases hm
  | cons kv rest ih =>
      obtain ⟨hk, hrest⟩ := List.nodup_cons.1 hnd
      rcases List.mem_cons.1 hm with h | h
      · rw [applySets_cons, getProp_applySets_not_mem]
        · rw [← h]; exact getProp_setProp_self ps k v
        · rw [← h] at hk; simpa using hk
      · rw [applySets_cons]; exact ih _ hrest h

theorem getProp_of_mem_nodup (ps : Props) (k : String) (v : Val)
    (hnd : keysNodup ps) (hm : (k, v) ∈ ps) : getProp ps k = some v := by
  induction ps with
  | nil => cases hm
  | cons kv rest ih =>
      obtain ⟨hk, hrest⟩ := List.nodup_cons.1 hnd
      obtain ⟨k1, v1⟩ := kv
      rcases List.mem_cons.1 hm with h | h
      · injection h with h1 h2
        subst h1; subst h2
        simp [getProp]
      · have hne : k1 ≠ k := by
          intro e
          subst e
          exact hk (List.mem_map.2 ⟨(k1, v), h, rfl⟩)
        simp [getProp, hne, ih hrest h]

theorem matchesProps_self (ps : Props) (hnd : keysNodup ps) : matchesProps ps ps := by
  intro kv hkv
  exact getProp_of_mem_nodup ps kv.1 kv.2 hnd hkv

/-! ### Store-operation lemmas -/

theorem mergeNode_edges (g : Graph) (l i : String) :
    (mergeNode g l i).edges = g.edges := by
  unfold mergeNode; split <;> rfl

theorem setNodeProps_edges (g : Graph) (l i : String) (kvs : Props) :
    (setNodeProps g l i kvs).edges = g.edges := rfl

theorem mergeEdge_nodes (g : Graph) (t fl fid tl tid : String) (ps : Props) :
    (mergeEdge g t fl fid tl tid ps).nodes = g.nodes := by
  unfold mergeEdge; split <;> rfl

theorem mergeNode_of_exists (g : Graph) (l i : String) (h : NodeExists g l i) :
    mergeNode g l i = g := by
  unfold mergeNode; exact if_pos h

theorem mergeEdge_of_hasEdge (g : Graph) (t fl fid tl tid : String) (ps : Props)
    (h : HasEdge g t fl fid tl tid ps) : mergeEdge g t fl fid tl tid ps = g := by
  unfold mergeEdge; exact if_pos h

theorem nodeExists_mergeNode_self (g : Graph) (l i : String) :
    NodeExists (mergeNode g l i) l i := by
  unfold mergeNode
  split
  · assumption
  · exact ⟨⟨l, [("id", Val.str i)]⟩,
      List.mem_append_right _ (List.mem_singleton.2 rfl), rfl, by simp [getProp]⟩

theorem nodeExists_mergeNode_mono (g : Graph) (l i l2 i2 : String)
    (h : NodeExists g l i) : NodeExists (mergeNode g l2 i2) l i := by
  unfold mergeNode
  split
  · exact h
  · obtain ⟨n, hn, hm⟩ := h
    exact ⟨n, List.mem_append_left _ hn, hm⟩

theorem nodeExists_mergeEdge (g : Graph) (t fl fid tl tid : String) (ps : Props)
    (l i : String) (h : NodeExists g l i) :
    NodeExists (mergeEdge g t fl fid tl tid ps) l i := by
  obtain ⟨n, hn, hm⟩ := h
  exact ⟨n, (mergeEdge_nodes g t fl fid tl tid ps).symm ▸ hn, hm⟩

theorem hasEdge_mergeEdge_self (g : Graph) (t fl fid tl tid : String) (ps : Props)
    (hnd : keysNodup ps) : HasEdge (mergeEdge g t fl fid tl tid ps) t fl fid tl tid ps := by
  unfold mergeEdge
  split
  · assumption
  · exact ⟨⟨t, fl, fid, tl, tid, ps⟩,
      List.mem_append_right _ (List.mem_singleton.2 rfl),
      ⟨rfl, rfl, rfl, rfl, rfl⟩, matchesProps_self ps hnd⟩

theorem hasEdge_mergeEdge_mono (g : Graph) (t fl fid tl tid : String) (ps : Props)
    (t2 fl2 fid2 tl2 tid2 : String) (ps2 : Props)
    (h : HasEdge g t fl fid tl tid ps) :
    HasEdge (mergeEdge g t2 fl2 fid2 tl2 tid2 ps2) t fl fid tl tid ps := by
  unfold mergeEdge
  split
  · exact h
  · obtain ⟨e, he, hm⟩ := h
    exact ⟨e, List.mem_append_left _ he, hm⟩

theorem hasEdge_mergeNode (g : Graph) (l i : String)
    (t fl fid tl tid : String) (ps : Props) (h : HasEdge g t fl fid tl tid ps) :
    HasEdge (mergeNode g l i) t fl fid tl tid ps := by
  obtain ⟨e, he, hm⟩ := h
  exact ⟨e, (mergeNode_edges g l i).symm ▸ he, hm⟩

theorem mem_mergeEdge_edges (g : Graph) (t fl fid tl tid : String) (ps : Props)
    (e : Edge) (h : e ∈ (mergeEdge g t fl fid tl tid ps).edges) :
    e ∈ g.edges ∨ e = ⟨t, fl, fid, tl, tid, ps⟩ := by
  unfold mergeEdge at h
  split at h
  · exact Or.inl h
  · rcases List.mem_append.1 h with h1 | h2
    · exact Or.inl h1
    · exact Or.inr (List.mem_singleton.1 h2)

theorem len_mergeEdge_edges (g : Graph) (t fl fid tl tid : String) (ps : Props) :
    (mergeEdge g t fl fid tl tid ps).edges.length ≤ g.edges.length + 1 := by
  unfold mergeEdge
  split
  · exact Nat.le_succ _
  · simp

theorem mergeEdge_edges_cases (g : Graph) (t fl fid tl tid : String) (ps : Props) :
    (mergeEdge g t fl fid tl tid ps).edges = g.edges ∨
    (mergeEdge g t fl fid tl tid ps).edges = g.edges ++ [⟨t, fl, fid, tl, tid, ps⟩] := by
  unfold mergeEdge
  split
  · exact Or.inl rfl
  · exact Or.inr rfl

theorem hasEdge_of_edges_eq (g1 g2 : Graph) (t fl fid tl tid : String) (ps : Props)
    (h : g1.edges = g2.edges) :
    HasEdge g1 t fl fid tl tid ps ↔ HasEdge g2 t fl fid tl tid ps := by
  unfold HasEdge; rw [h]

theorem mergeEdge_edges_eq (g : Graph) (t fl fid tl tid : String) (ps : Props) :
    (mergeEdge g t fl fid tl tid ps).edges =
      if HasEdge g t fl fid tl tid ps then g.edges
      else g.edges ++ [⟨t, fl, fid, tl, tid, ps⟩] := by
  by_cases h : HasEdge g t fl fid tl tid ps
  · simp [mergeEdge, h]
  · simp [mergeEdge, h]

/-! ### Structure of `merge_relationship` -/

theorem merge_relationship_nodeExists (g : Graph) (r : Relationship) :
    NodeExists (merge_relationship g r) r.from_type r.from_id ∧
    NodeExists (merge_relationship g r) r.to_type r.to_id := by
  cases heq : bidirLookup r.type with
  | none =>
      simp only [merge_relationship, heq]
      constructor
      · apply nodeExists_mergeEdge
        apply nodeExists_mergeNode_mono
        apply nodeExists_mergeNode_self
      · apply nodeExists_mergeEdge
        apply nodeExists_mergeNode_self
  | some M =>
      simp only [merge_relationship, heq, ite_self]
      constructor
      · apply nodeExists_mergeEdge
        apply nodeExists_mergeNode_self
      · apply nodeExists_mergeEdge
        apply nodeExists_mergeNode_mono
        apply nodeExists_mergeNode_self

theorem merge_relationship_hasEdge (g : Graph) (r : Relationship)
    (hnd : keysNodup r.properties) :
    HasEdge (merge_relationship g r) r.type r.from_type r.from_id r.to_type r.to_id
      r.properties ∧
    ∀ M, bidirLookup r.type = some M →
      HasEdge (merge_relationship g r) M r.to_type r.to_id r.from_type r.from_id
        r.properties := by
  cases heq : bidirLookup r.type with
  | none =>
      simp only [merge_relationship, heq]
      refine ⟨hasEdge_mergeEdge_self _ _ _ _ _ _ _ hnd, ?_⟩
      intro M hM
      exact Option.noConfusion hM
  | some M0 =>
      simp only [merge_relationship, heq, ite_self]
      constructor
      · apply hasEdge_mergeEdge_mono
        apply hasEdge_mergeNode
        apply hasEdge_mergeNode
        exact hasEdge_mergeEdge_self _ _ _ _ _ _ _ hnd
      · intro M hM
        obtain rfl : M0 = M := Option.some.inj hM
        exact hasEdge_mergeEdge_self _ _ _ _ _ _ _ hnd

theorem merge_relationship_idem (g : Graph) (r : Relationship)
    (hnd : keysNodup r.properties) :
    merge_relationship (merge_relationship g r) r = merge_relationship g r := by
  obtain ⟨hf, ht⟩ := merge_relationship_nodeExists g r
  obtain ⟨he, hm⟩ := merge_relationship_hasEdge g r hnd
  set G := merge_relationship g r with hG
  cases heq : bidirLookup r.type with
  | none =>
      simp only [merge_relationship, heq]
      rw [mergeNode_of_exists _ _ _ hf, mergeNode_of_exists _ _ _ ht,
        mergeEdge_of_hasEdge _ _ _ _ _ _ _ he]
  | some M =>
      simp only [merge_relationship, heq, ite_self]
      rw [mergeNode_of_exists _ _ _ hf, mergeNode_of_exists _ _ _ ht,
        mergeEdge_of_hasEdge _ _ _ _ _ _ _ he, mergeNode_of_exists _ _ _ ht,
        mergeNode_of_exists _ _ _ hf, mergeEdge_of_hasEdge _ _ _ _ _ _ _ (hm M heq)]

theorem merge_relationship_empty_edges (r : Relationship)
    (hnd : keysNodup r.properties) :
    (merge_relationship Graph.empty r).edges =
      match bidirLookup r.type with
      | none => [fwdEdge r]
      | some M =>
          if r.type = M ∧ r.from_type = r.to_type ∧ r.from_id = r.to_id
          then [fwdEdge r]
          else [fwdEdge r, mirrorEdge r M] := by
  have hfwd : (mergeEdge (mergeNode (mergeNode Graph.empty r.from_type r.from_id)
      r.to_type r.to_id) r.type r.from_type r.from_id r.to_type r.to_id
      r.properties).edges = [fwdEdge r] := by
    have h0 : (mergeNode (mergeNode Graph.empty r.from_type r.from_id)
        r.to_type r.to_id).edges = [] := by
      rw [mergeNode_edges, mergeNode_edges]; rfl
    rw [mergeEdge_edges_eq, if_neg, h0]
    · rfl
    · intro h
      obtain ⟨e, he, -⟩ := h
      rw [h0] at he
      exact absurd he (List.not_mem_nil e)
  cases heq : bidirLookup r.type with
  | none => simp only [merge_relationship, heq]; exact hfwd
  | some M =>
      simp only [merge_relationship, heq, ite_self]
      have h5 : (mergeNode (mergeNode (mergeEdge (mergeNode (mergeNode Graph.empty
          r.from_type r.from_id) r.to_type r.to_id) r.type r.from_type r.from_id
          r.to_type r.to_id r.properties) r.to_type r.to_id) r.from_type
          r.from_id).edges = [fwdEdge r] := by
        rw [mergeNode_edges, mergeNode_edges]; exact hfwd
      rw [mergeEdge_edges_eq]
      have hiff : HasEdge (mergeNode (mergeNode (mergeEdge (mergeNode (mergeNode
          Graph.empty r.from_type r.from_id) r.to_type r.to_id) r.type r.from_type
          r.from_id r.to_type r.to_id r.properties) r.to_type r.to_id) r.from_type
          r.from_id) M r.to_type r.to_id r.from_type r.from_id r.properties ↔
          (r.type = M ∧ r.from_type = r.to_type ∧ r.from_id = r.to_id) := by
        unfold HasEdge
        rw [h5]
        simp only [List.mem_singleton]
        constructor
        · rintro ⟨e, rfl, ⟨h1, h2, h3, h4, h6⟩, -⟩
          exact ⟨h1, h2, h3⟩
        · rintro ⟨h1, h2, h3⟩
          exact ⟨fwdEdge r, rfl, ⟨h1, h2, h3, h2.symm, h3.symm⟩,
            matchesProps_self r.properties hnd⟩
      rw [h5]
      by_cases hc : r.type = M ∧ r.from_type = r.to_type ∧ r.from_id = r.to_id
      · rw [if_pos (hiff.mpr hc), if_pos hc]
      · rw [if_neg (fun h => hc (hiff.mp h)), if_neg hc]
        rfl

theorem merge_relationship_edges_bound (g : Graph) (r : Relationship) :
    (merge_relationship g r).edges.length ≤ g.edges.length + 2 ∧
    ∀ e ∈ (merge_relationship g r).edges,
      e ∈ g.edges ∨ e = fwdEdge r ∨
      ∃ M, bidirLookup r.type = some M ∧ e = mirrorEdge r M := by
  cases heq : bidirLookup r.type with
  | none =>
      simp only [merge_relationship, heq]
      constructor
      · calc (mergeEdge (mergeNode (mergeNode g r.from_type r.from_id) r.to_type
            r.to_id) r.type r.from_type r.from_id r.to_type r.to_id
            r.properties).edges.length
            ≤ (mergeNode (mergeNode g r.from_type r.from_id) r.to_type
                r.to_id).edges.length + 1 := len_mergeEdge_edges _ _ _ _ _ _ _
          _ = g.edges.length + 1 := by rw [mergeNode_edges, mergeNode_edges]
          _ ≤ g.edges.length + 2 := Nat.le_succ _
      · intro e he
        rcases mem_mergeEdge_edges _ _ _ _ _ _ _ _ he with h1 | h2
        · rw [mergeNode_edges, mergeNode_edges] at h1
          exact Or.inl h1
        · exact Or.inr (Or.inl h2)
  | some M =>
      simp only [merge_relationship, heq, ite_self]
      constructor
      · calc (mergeEdge (mergeNode (mergeNode (mergeEdge (mergeNode (mergeNode g
            r.from_type r.from_id) r.to_type r.to_id) r.type r.from_type r.from_id
            r.to_type r.to_id r.properties) r.to_type r.to_id) r.from_type
            r.from_id) M r.to_type r.to_id r.from_type r.from_id
            r.properties).edges.length
            ≤ (mergeNode (mergeNode (mergeEdge (mergeNode (mergeNode g r.from_type
                r.from_id) r.to_type r.to_id) r.type r.from_type r.from_id
                r.to_type r.to_id r.properties) r.to_type r.to_id) r.from_type
                r.from_id).edges.length + 1 := len_mergeEdge_edges _ _ _ _ _ _ _
          _ = (mergeEdge (mergeNode (mergeNode g r.from_type r.from_id) r.to_type
                r.to_id) r.type r.from_type r.from_id r.to_type r.to_id
                r.properties).edges.length + 1 := by
              rw [mergeNode_edges, mergeNode_edges]
          _ ≤ ((mergeNode (mergeNode g r.from_type r.from_id) r.to_type
                r.to_id).edges.length + 1) + 1 :=
              Nat.add_le_add_right (len_mergeEdge_edges _ _ _ _ _ _ _) 1
          _ = g.edges.length + 2 := by rw [mergeNode_edges, mergeNode_edges]
      · intro e he
        rcases mem_mergeEdge_edges _ _ _ _ _ _ _ _ he with h1 | h2
        · rw [mergeNode_edges, mergeNode_edges] at h1
          rcases mem_mergeEdge_edges _ _ _ _ _ _ _ _ h1 with h3 | h4
          · rw [mergeNode_edges, mergeNode_edges] at h3
            exact Or.inl h3
          · exact Or.inr (Or.inl h4)
        · exact Or.inr (Or.inr ⟨M, rfl, h2⟩)

/-! ### Node-lookup lemmas -/

theorem findNodeProps_mergeEdge (g : Graph) (t fl fid tl tid : String) (ps : Props)
    (l i : String) :
    findNodeProps (mergeEdge g t fl fid tl tid ps) l i = findNodeProps g l i := by
  unfold findNodeProps
  rw [mergeEdge_nodes]

theorem findNodeProps_mergeNode_of_not_exists (g : Graph) (l i : String)
    (h : ¬ NodeExists g l i) :
    findNodeProps (mergeNode g l i) l i = some [("id", Val.str i)] := by
  unfold mergeNode
  rw [if_neg h]
  unfold findNodeProps
  rw [List.find?_append]
  have h1 : List.find? (fun n => decide (NodeMatches n l i)) g.nodes = none := by
    rw [List.find?_eq_none]
    intro n hn hp
    exact h ⟨n, hn, of_decide_eq_true hp⟩
  have h2 : List.find? (fun n => decide (NodeMatches n l i))
      [(⟨l, [("id", Val.str i)]⟩ : Node)] = some ⟨l, [("id", Val.str i)]⟩ := by
    apply List.find?_cons_of_pos
    exact decide_eq_true ⟨rfl, by simp [getProp]⟩
  rw [h1, h2]
  rfl

theorem findNodeProps_mergeNode_stable (g : Graph) (l i l2 i2 : String) (ps : Props)
    (h : findNodeProps g l i = some ps) :
    findNodeProps (mergeNode g l2 i2) l i = some ps := by
  unfold mergeNode
  split
  · exact h
  · unfold findNodeProps at h ⊢
    rw [List.find?_append]
    cases hf : List.find? (fun n => decide (NodeMatches n l i)) g.nodes with
    | none => rw [hf] at h; simp at h
    | some n => rw [hf] at h; simpa using h

theorem findNodeProps_isSome (g : Graph) (l i : String) (h : NodeExists g l i) :
    ∃ ps, findNodeProps g l i = some ps := by
  obtain ⟨n, hn, hm⟩ := h
  have : (List.find? (fun n => decide (NodeMatches n l i)) g.nodes).isSome :=
    List.find?_isSome.mpr ⟨n, hn, decide_eq_true hm⟩
  obtain ⟨n2, hn2⟩ := Option.isSome_iff_exists.mp this
  exact ⟨n2.props, by unfold findNodeProps; rw [hn2]; rfl⟩

theorem findNodeProps_setNodeProps (g : Graph) (l i : String) (kvs : Props)
    (hid : "id" ∉ kvs.map Prod.fst) :
    findNodeProps (setNodeProps g l i kvs) l i =
      (findNodeProps g l i).map (fun ps => applySets ps kvs) := by
  unfold findNodeProps setNodeProps
  have key : ∀ ns : List Node,
      List.find? (fun n => decide (NodeMatches n l i))
        (ns.map (fun n => if NodeMatches n l i
          then { n with props := applySets n.props kvs } else n)) =
      (List.find? (fun n => decide (NodeMatches n l i)) ns).map
        (fun n => { n with props := applySets n.props kvs }) := by
    intro ns
    induction ns with
    | nil => rfl
    | cons n rest ih =>
        by_cases hm : NodeMatches n l i
        · rw [List.map_cons, if_pos hm]
          have hp2 : decide (NodeMatches
              ({ label := n.label, props := applySets n.props kvs } : Node) l i)
              = true := by
            refine decide_eq_true ⟨hm.1, ?_⟩
            rw [getProp_applySets_not_mem _ _ _ hid]
            exact hm.2
          rw [@List.find?_cons_of_pos Node (fun n => decide (NodeMatches n l i))
              ({ label := n.label, props := applySets n.props kvs } : Node)
              (List.map (fun n => if NodeMatches n l i
                then { label := n.label, props := applySets n.props kvs } else n)
                rest) hp2,
            @List.find?_cons_of_pos Node (fun n => decide (NodeMatches n l i))
              n rest (decide_eq_true hm)]
          rfl
        · rw [List.map_cons, if_neg hm]
          rw [List.find?_cons_of_neg _ (by simpa using hm),
            List.find?_cons_of_neg _ (by simpa using hm)]
          exact ih
  rw [key]
  cases List.find? (fun n => decide (NodeMatches n l i)) g.nodes with
  | none => rfl
  | some n => rfl

theorem nodeExists_setNodeProps (g : Graph) (l i : String) (kvs : Props)
    (hid : "id" ∉ kvs.map Prod.fst) (h : NodeExists g l i) :
    NodeExists (setNodeProps g l i kvs) l i := by
  obtain ⟨n, hn, hm⟩ := h
  refine ⟨if NodeMatches n l i then { n with props := applySets n.props kvs } else n,
    List.mem_map_of_mem _ hn, ?_⟩
  rw [if_pos hm]
  refine ⟨hm.1, ?_⟩
  rw [getProp_applySets_not_mem _ _ _ hid]
  exact hm.2

theorem countNodes_setNodeProps (g : Graph) (l i l2 i2 : String) (kvs : Props)
    (hid : "id" ∉ kvs.map Prod.fst) :
    countNodes (setNodeProps g l i kvs) l2 i2 = countNodes g l2 i2 := by
  unfold countNodes setNodeProps
  rw [List.countP_map]
  apply List.countP_congr
  intro n hn
  simp only [Function.comp_apply, decide_eq_true_eq]
  by_cases hm : NodeMatches n l i
  · rw [if_pos hm]
    unfold NodeMatches
    rw [getProp_applySets_not_mem _ _ _ hid]
  · rw [if_neg hm]

/-! ### `merge_person` lemmas -/

theorem personSetFields_id_not_mem (p : Person) :
    "id" ∉ (personSetFields p).map Prod.fst := by
  unfold personSetFields
  split <;> simp

theorem personSetFields_nodup (p : Person) : keysNodup (personSetFields p) := by
  unfold personSetFields keysNodup
  split <;> simp

theorem merge_person_node_getProp (g : Graph) (p : Person)
    (kv : String × Val) (hkv : kv ∈ personSetFields p) :
    getNodeProp (merge_person_node g p) "Person" p.id kv.1 = some kv.2 := by
  unfold merge_person_node getNodeProp
  obtain ⟨ps0, hps0⟩ := findNodeProps_isSome (mergeNode g "Person" p.id) "Person" p.id
    (nodeExists_mergeNode_self g "Person" p.id)
  rw [findNodeProps_setNodeProps _ _ _ _ (personSetFields_id_not_mem p), hps0]
  exact getProp_applySets_mem ps0 (personSetFields p) kv.1 kv.2
    (personSetFields_nodup p) hkv

theorem personSetFields_hire_date_empty (p : Person) (h : p.hire_date = "") :
    "hire_date" ∉ (personSetFields p).map Prod.fst := by
  unfold personSetFields
  rw [if_neg (fun hh => hh h)]
  simp

theorem merge_person_node_hire_date_skipped (g : Graph) (p : Person)
    (h : p.hire_date = "") :
    getNodeProp (merge_person_node g p) "Person" p.id "hire_date" =
      getNodeProp (mergeNode g "Person" p.id) "Person" p.id "hire_date" := by
  unfold merge_person_node getNodeProp
  rw [findNodeProps_setNodeProps _ _ _ _ (personSetFields_id_not_mem p)]
  cases hf : findNodeProps (mergeNode g "Person" p.id) "Person" p.id with
  | none => rfl
  | some ps0 =>
      simp only [Option.map_some']
      show getProp (applySets ps0 (personSetFields p)) "hire_date" =
        Option.bind (some ps0) fun ps => getProp ps "hire_date"
      rw [getProp_applySets_not_mem _ _ _ (personSetFields_hire_date_empty p h)]
      rfl

theorem merge_person_node_nodeExists (g : Graph) (p : Person) :
    NodeExists (merge_person_node g p) "Person" p.id := by
  unfold merge_person_node
  exact nodeExists_setNodeProps _ _ _ _ (personSetFields_id_not_mem p)
    (nodeExists_mergeNode_self g "Person" p.id)

theorem merge_person_node_count_of_exists (g : Graph) (p : Person)
    (h : NodeExists g "Person" p.id) :
    countNodes (merge_person_node g p) "Person" p.id = countNodes g "Person" p.id := by
  unfold merge_person_node
  rw [mergeNode_of_exists _ _ _ h,
    countNodes_setNodeProps _ _ _ _ _ _ (personSetFields_id_not_mem p)]

/-! ### Cascade-loop lemmas -/

theorem mergeRelsExc_cons_ok (f : Graph → Relationship → Except String Graph)
    (g g2 : Graph) (r : Relationship) (rs : List Relationship)
    (h : f g r = Except.ok g2) :
    mergeRelsExc f g (r :: rs) = mergeRelsExc f g2 rs := by
  show (match f g r with
    | Except.ok g2 => mergeRelsExc f g2 rs
    | Except.error e => Except.error (e, g)) = mergeRelsExc f g2 rs
  rw [h]

theorem mergeRelsExc_cons_err (f : Graph → Relationship → Except String Graph)
    (g : Graph) (r : Relationship) (rs : List Relationship) (e : String)
    (h : f g r = Except.error e) :
    mergeRelsExc f g (r :: rs) = Except.error (e, g) := by
  show (match f g r with
    | Except.ok g2 => mergeRelsExc f g2 rs
    | Except.error e => Except.error (e, g)) = Except.error (e, g)
  rw [h]

theorem mergeRelsExc_append_ok (f : Graph → Relationship → Except String Graph)
    (g gk : Graph) (xs ys : List Relationship)
    (h : mergeRelsExc f g xs = Except.ok gk) :
    mergeRelsExc f g (xs ++ ys) = mergeRelsExc f gk ys := by
  induction xs generalizing g with
  | nil =>
      obtain rfl : g = gk := Except.ok.inj h
      rfl
  | cons x xs ih =>
      cases hf : f g x with
      | ok g2 =>
          have h2 : mergeRelsExc f g2 xs = Except.ok gk := by
            rw [← mergeRelsExc_cons_ok f g g2 x xs hf]
            exact h
          rw [List.cons_append, mergeRelsExc_cons_ok f g g2 x (xs ++ ys) hf]
          exact ih g2 h2
      | error e =>
          rw [mergeRelsExc_cons_err f g x xs e hf] at h
          exact absurd h (by simp)

theorem mergeRelsExc_all_ok (f : Graph → Relationship → Except String Graph)
    (hok : ∀ g0 r0, f g0 r0 = Except.ok (merge_relationship g0 r0)) :
    ∀ (g : Graph) (rs : List Relationship),
      mergeRelsExc f g rs = Except.ok (List.foldl merge_relationship g rs) := by
  intro g rs
  induction rs generalizing g with
  | nil => rfl
  | cons r rs ih =>
      rw [mergeRelsExc_cons_ok f g (merge_relationship g r) r rs (hok g r)]
      exact ih (merge_relationship g r)

theorem findNodeProps_two_mergeNode_to (g : Graph) (ft fi tt ti : String)
    (h : ¬ NodeExists g tt ti) :
    findNodeProps (mergeNode (mergeNode g ft fi) tt ti) tt ti
      = some [("id", Val.str ti)] := by
  by_cases hex : NodeExists (mergeNode g ft fi) tt ti
  · rw [mergeNode_of_exists _ _ _ hex]
    by_cases hex0 : NodeExists g ft fi
    · rw [mergeNode_of_exists _ _ _ hex0] at hex
      exact absurd hex h
    · have hph : NodeMatches ⟨ft, [("id", Val.str fi)]⟩ tt ti := by
        unfold mergeNode at hex
        rw [if_neg hex0] at hex
        obtain ⟨n, hn, hm⟩ := hex
        rcases List.mem_append.1 hn with h1 | h2
        · exact absurd ⟨n, h1, hm⟩ h
        · obtain rfl := List.mem_singleton.1 h2
          exact hm
      have hfi : fi = ti := by
        have h2 := hph.2
        simp [getProp] at h2
        exact h2
      unfold mergeNode
      rw [if_neg hex0]
      unfold findNodeProps
      rw [List.find?_append]
      have h1 : List.find? (fun n => decide (NodeMatches n tt ti)) g.nodes = none := by
        rw [List.find?_eq_none]
        intro n hn hp
        exact h ⟨n, hn, of_decide_eq_true hp⟩
      rw [h1,
        @List.find?_cons_of_pos Node (fun n => decide (NodeMatches n tt ti))
          ⟨ft, [("id", Val.str fi)]⟩ [] (decide_eq_true hph)]
      simp [hfi]
  · exact findNodeProps_mergeNode_of_not_exists _ _ _ hex

/-! ### Claim theorems -/

/-- C7: for a relationship whose type is absent from the bidirectional
registry, `merge_relationship` issues exactly one edge write (the forward
edge) and no mirror edge; the registry miss is not an error (the operation
is total and from an empty store yields exactly the forward edge). -/
theorem unregistered_type_no_mirror (r : Relationship)
    (hb : bidirLookup r.type = none) :
    (∀ g : Graph, (merge_relationship g r).edges = g.edges ∨
      (merge_relationship g r).edges = g.edges ++ [fwdEdge r]) ∧
    (merge_relationship Graph.empty r).edges = [fwdEdge r] := by
  constructor
  · intro g
    simp only [merge_relationship, hb]
    rcases mergeEdge_edges_cases (mergeNode (mergeNode g r.from_type r.from_id)
        r.to_type r.to_id) r.type r.from_type r.from_id r.to_type r.to_id
        r.properties with h | h
    · left
      rw [h, mergeNode_edges, mergeNode_edges]
    · right
      rw [h, mergeNode_edges, mergeNode_edges]
      rfl
  · simp only [merge_relationship, hb]
    have h0 : (mergeNode (mergeNode Graph.empty r.from_type r.from_id)
        r.to_type r.to_id).edges = [] := by
      rw [mergeNode_edges, mergeNode_edges]; rfl
    rw [mergeEdge_edges_eq, if_neg, h0]
    · rfl
    · intro hh
      obtain ⟨e, he, -⟩ := hh
      rw [h0] at he
      exact absurd he (List.not_mem_nil e)

/-- C7 witness: the unregistered type WORKS_WITH yields exactly the
forward edge from an empty store. -/
theorem unregistered_type_no_mirror_witness :
    (merge_relationship Graph.empty
        ⟨ "WORKS_WITH", "a", "b", "Person", "Person", []⟩).edges
      = [fwdEdge ⟨ "WORKS_WITH", "a", "b", "Person", "Person", []⟩] :=
  (unregistered_type_no_mirror
    ⟨ "WORKS_WITH", "a", "b", "Person", "Person", []⟩ (by decide)).2

/-- C10: mirror creation is single-step and never recursive: an upsert of
a registered type with mirror `M` performs at most two edge writes, every
new edge is the forward or the mirror edge, and the registry entry for `M`
itself is never consulted — upserting REPORTS_TO yields exactly a
REPORTS_TO and a MANAGES edge, never a MANAGED_BY edge, even though
MANAGES is itself registered with mirror MANAGED_BY. -/
theorem mirror_is_single_step (r : Relationship) (M : String)
    (hb : bidirLookup r.type = some M) :
    (∀ g : Graph, (merge_relationship g r).edges.length ≤ g.edges.length + 2 ∧
      ∀ e ∈ (merge_relationship g r).edges,
        e ∈ g.edges ∨ e = fwdEdge r ∨ e = mirrorEdge r M) ∧
    bidirLookup "REPORTS_TO" = some "MANAGES" ∧
    bidirLookup "MANAGES" = some "MANAGED_BY" ∧
    (merge_relationship Graph.empty
        ⟨ "REPORTS_TO", "p1", "p2", "Person", "Person", []⟩).edges.map Edge.type
      = ["REPORTS_TO", "MANAGES"] := by
  refine ⟨?_, by decide, by decide, by decide⟩
  intro g
  obtain ⟨hlen, hmem⟩ := merge_relationship_edges_bound g r
  refine ⟨hlen, ?_⟩
  intro e he
  rcases hmem e he with h | h | ⟨M2, hM2, h⟩
  · exact Or.inl h
  · exact Or.inr (Or.inl h)
  · rw [hb] at hM2
    obtain rfl := Option.some.inj hM2
    exact Or.inr (Or.inr h)

/-- C10 witness: the bound instantiated for a REPORTS_TO upsert on the
empty store. -/
theorem mirror_is_single_step_witness :
    (merge_relationship Graph.empty
        ⟨ "REPORTS_TO", "p1", "p2", "Person", "Person", []⟩).edges.length ≤
      Graph.empty.edges.length + 2 :=
  ((mirror_is_single_step ⟨ "REPORTS_TO", "p1", "p2", "Person", "Person", []⟩
    "MANAGES" (by decide)).1 Graph.empty).1

/-- C2: for a relationship whose type is registered with mirror `M`, a
single upsert produces both the forward edge and the mirror edge with
endpoints reversed, each carrying the relationship's property bag; from an
empty store every written edge carries exactly that bag, and in the
symmetric case (`M` equals the forward type) the two edges differ only in
direction, never in type label. -/
theorem registered_type_mirror (r : Relationship) (M : String)
    (hb : bidirLookup r.type = some M) (hnd : keysNodup r.properties) :
    (∀ g : Graph,
      HasEdge (merge_relationship g r) r.type r.from_type r.from_id r.to_type
        r.to_id r.properties ∧
      HasEdge (merge_relationship g r) M r.to_type r.to_id r.from_type
        r.from_id r.properties) ∧
    (∀ e ∈ (merge_relationship Graph.empty r).edges,
      e.props = r.properties ∧ (e.type = r.type ∨ e.type = M)) ∧
    (M = r.type → ∀ e ∈ (merge_relationship Graph.empty r).edges,
      e.type = r.type ∧
      ((e.fromLabel = r.from_type ∧ e.fromId = r.from_id ∧
        e.toLabel = r.to_type ∧ e.toId = r.to_id) ∨
       (e.fromLabel = r.to_type ∧ e.fromId = r.to_id ∧
        e.toLabel = r.from_type ∧ e.toId = r.from_id))) := by
  have hshape := merge_relationship_empty_edges r hnd
  simp only [hb] at hshape
  refine ⟨?_, ?_, ?_⟩
  · intro g
    obtain ⟨hf, hm⟩ := merge_relationship_hasEdge g r hnd
    exact ⟨hf, hm M hb⟩
  · intro e he
    rw [hshape] at he
    split at he
    · obtain rfl := List.mem_singleton.1 he
      exact ⟨rfl, Or.inl rfl⟩
    · rcases List.mem_cons.1 he with rfl | h2
      · exact ⟨rfl, Or.inl rfl⟩
      · obtain rfl := List.mem_singleton.1 h2
        exact ⟨rfl, Or.inr rfl⟩
  · intro hM e he
    rw [hshape] at he
    split at he
    · obtain rfl := List.mem_singleton.1 he
      exact ⟨rfl, Or.inl ⟨rfl, rfl, rfl, rfl⟩⟩
    · rcases List.mem_cons.1 he with rfl | h2
      · exact ⟨rfl, Or.inl ⟨rfl, rfl, rfl, rfl⟩⟩
      · obtain rfl := List.mem_singleton.1 h2
        exact ⟨hM, Or.inr ⟨rfl, rfl, rfl, rfl⟩⟩

/-- C2 witness: a COLLABORATOR upsert (symmetric registered type) on the
empty store yields both the forward and the reversed edge, each carrying
permission=WRITE. -/
theorem registered_type_mirror_witness :
    HasEdge (merge_relationship Graph.empty
        ⟨ "COLLABORATOR", "t1", "r1", "Team", "Repository",
          [("permission", Val.str "WRITE")]⟩)
      "COLLABORATOR" "Team" "t1" "Repository" "r1"
      [("permission", Val.str "WRITE")] ∧
    HasEdge (merge_relationship Graph.empty
        ⟨ "COLLABORATOR", "t1", "r1", "Team", "Repository",
          [("permission", Val.str "WRITE")]⟩)
      "COLLABORATOR" "Repository" "r1" "Team" "t1"
      [("permission", Val.str "WRITE")] :=
  (registered_type_mirror
    ⟨ "COLLABORATOR", "t1", "r1", "Team", "Repository",
      [("permission", Val.str "WRITE")]⟩
    "COLLABORATOR" (by decide) (by decide)).1 Graph.empty

/-- C3: upserting the same relationship tuple twice with the same property
bag is idempotent: the second call returns the store unchanged (so no
duplicate edge or node is created), and starting from the empty store
exactly one forward edge with that type and those endpoints exists
afterward, carrying exactly the relationship's properties. -/
theorem edge_upsert_idempotent (r : Relationship) (hnd : keysNodup r.properties) :
    (∀ g : Graph,
      merge_relationship (merge_relationship g r) r = merge_relationship g r) ∧
    (merge_relationship (merge_relationship Graph.empty r) r).edges.filter
        (fun e => decide (EdgeMatches e r.type r.from_type r.from_id r.to_type
          r.to_id))
      = [fwdEdge r] := by
  have hidem : ∀ g : Graph,
      merge_relationship (merge_relationship g r) r = merge_relationship g r :=
    fun g => merge_relationship_idem g r hnd
  refine ⟨hidem, ?_⟩
  rw [hidem Graph.empty]
  have hshape := merge_relationship_empty_edges r hnd
  have hpfwd : decide (EdgeMatches (fwdEdge r) r.type r.from_type r.from_id
      r.to_type r.to_id) = true :=
    decide_eq_true ⟨rfl, rfl, rfl, rfl, rfl⟩
  cases hlk : bidirLookup r.type with
  | none =>
      simp only [hlk] at hshape
      rw [hshape, @List.filter_cons_of_pos Edge
        (fun e => decide (EdgeMatches e r.type r.from_type r.from_id r.to_type
          r.to_id)) (fwdEdge r) [] hpfwd]
      rfl
  | some M =>
      simp only [hlk] at hshape
      rw [hshape]
      split_ifs with hc
      · rw [@List.filter_cons_of_pos Edge
          (fun e => decide (EdgeMatches e r.type r.from_type r.from_id r.to_type
            r.to_id)) (fwdEdge r) [] hpfwd]
        rfl
      · rw [@List.filter_cons_of_pos Edge
          (fun e => decide (EdgeMatches e r.type r.from_type r.from_id r.to_type
            r.to_id)) (fwdEdge r) [mirrorEdge r M] hpfwd]
        have hpm : ¬ decide (EdgeMatches (mirrorEdge r M) r.type r.from_type
            r.from_id r.to_type r.to_id) = true := by
          intro hd
          obtain ⟨h1, h2, h3, h4, h5⟩ := of_decide_eq_true hd
          exact hc ⟨h1.symm, h2.symm, h3.symm⟩
        rw [@List.filter_cons_of_neg Edge
          (fun e => decide (EdgeMatches e r.type r.from_type r.from_id r.to_type
            r.to_id)) (mirrorEdge r M) [] hpm]
        rfl

/-- C3 witness: the double MEMBER_OF upsert instantiated on a concrete
tuple. -/
theorem edge_upsert_idempotent_witness :
    merge_relationship (merge_relationship Graph.empty
        ⟨ "MEMBER_OF", "p1", "t1", "Person", "Team", [("since", Val.str "2024")]⟩)
      ⟨ "MEMBER_OF", "p1", "t1", "Person", "Team", [("since", Val.str "2024")]⟩
      = merge_relationship Graph.empty
        ⟨ "MEMBER_OF", "p1", "t1", "Person", "Team", [("since", Val.str "2024")]⟩ :=
  (edge_upsert_idempotent
    ⟨ "MEMBER_OF", "p1", "t1", "Person", "Team", [("since", Val.str "2024")]⟩
    (by decide)).1 Graph.empty

/-- C5: a self-relationship (same endpoint type and id) of a registered
bidirectional type executes both the forward and the mirror step: both the
forward self-loop pattern and the mirror self-loop pattern are present
afterward, and for an asymmetric mirror type the empty store ends with the
two distinct self-loop edges. -/
theorem selfloop_both_steps (r : Relationship) (M : String)
    (hb : bidirLookup r.type = some M)
    (hl : r.from_type = r.to_type) (hi : r.from_id = r.to_id)
    (hnd : keysNodup r.properties) :
    (∀ g : Graph,
      HasEdge (merge_relationship g r) r.type r.from_type r.from_id
        r.from_type r.from_id r.properties ∧
      HasEdge (merge_relationship g r) M r.from_type r.from_id
        r.from_type r.from_id r.properties) ∧
    (M ≠ r.type →
      (merge_relationship Graph.empty r).edges = [fwdEdge r, mirrorEdge r M]) := by
  constructor
  · intro g
    obtain ⟨hf, hm⟩ := merge_relationship_hasEdge g r hnd
    have hm2 := hm M hb
    rw [← hl, ← hi] at hf hm2
    exact ⟨hf, hm2⟩
  · intro hne
    have hshape := merge_relationship_empty_edges r hnd
    simp only [hb] at hshape
    rw [if_neg (fun hcc => hne hcc.1.symm)] at hshape
    exact hshape

/-- C5 witness: a REPORTS_TO self-loop on person x produces both the
REPORTS_TO and the MANAGES self-loop edge. -/
theorem selfloop_both_steps_witness :
    (merge_relationship Graph.empty
        ⟨ "REPORTS_TO", "x", "x", "Person", "Person", []⟩).edges
      = [fwdEdge ⟨ "REPORTS_TO", "x", "x", "Person", "Person", []⟩,
         mirrorEdge ⟨ "REPORTS_TO", "x", "x", "Person", "Person", []⟩ "MANAGES"] :=
  (selfloop_both_steps ⟨ "REPORTS_TO", "x", "x", "Person", "Person", []⟩
    "MANAGES" (by decide) rfl rfl (by decide)).2 (by decide)

/-- C4 counterexample: `merge_person` does not set every declared field
unconditionally — a Person re-upserted with the empty `hire_date` sentinel
leaves the previously stored `hire_date` in place, so the stored node's
properties do not equal the latest entity's properties. -/
theorem empty_hire_date_not_overwritten :
    getNodeProp
      (merge_person
        (merge_person Graph.empty
          ⟨ "p1", "Alice", "alice@example.com", "Engineer", "IC", "Senior",
            "2020-01-01", false⟩ none)
        ⟨ "p1", "Alice", "alice@example.com", "Engineer", "IC", "Senior",
          "", false⟩ none)
      "Person" "p1" "hire_date" = some (Val.date "2020-01-01") ∧
    Person.hire_date
      ⟨ "p1", "Alice", "alice@example.com", "Engineer", "IC", "Senior",
        "", false⟩ = "" := by
  decide

/-- C4 (amended): `merge_person` matches-or-creates the node keyed by
(label Person, id) and sets every field of its `SET` list unconditionally
(last-write-wins field by field); when `hire_date` is non-empty it is in
that list (stored as a date), but when `hire_date` is the empty sentinel
it is omitted from the `SET` list, so the stored `hire_date` — if any — is
left unchanged rather than overwritten or cleared.  No duplicate node is
created when the node already exists. -/
theorem node_upsert_field_semantics (g : Graph) (p : Person) :
    (∀ kv ∈ personSetFields p,
      getNodeProp (merge_person g p none) "Person" p.id kv.1 = some kv.2) ∧
    (p.hire_date ≠ "" → ("hire_date", Val.date p.hire_date) ∈ personSetFields p) ∧
    (p.hire_date = "" →
      getNodeProp (merge_person g p none) "Person" p.id "hire_date" =
        getNodeProp (mergeNode g "Person" p.id) "Person" p.id "hire_date") ∧
    NodeExists (merge_person g p none) "Person" p.id ∧
    (NodeExists g "Person" p.id →
      countNodes (merge_person g p none) "Person" p.id =
        countNodes g "Person" p.id) := by
  refine ⟨?_, ?_, ?_, ?_, ?_⟩
  · intro kv hkv
    exact merge_person_node_getProp g p kv hkv
  · intro h
    unfold personSetFields
    rw [if_pos h]
    simp
  · intro h
    exact merge_person_node_hire_date_skipped g p h
  · exact merge_person_node_nodeExists g p
  · intro h
    exact merge_person_node_count_of_exists g p h

/-- C4 witness: the amended semantics instantiated on a concrete person
with a non-empty hire date, starting from the empty store. -/
theorem node_upsert_field_semantics_witness :
    getNodeProp
      (merge_person Graph.empty
        ⟨ "p2", "Bob", "bob@example.com", "Manager", "EM", "Staff",
          "2019-05-05", true⟩ none)
      "Person" "p2" "hire_date" = some (Val.date "2019-05-05") :=
  (node_upsert_field_semantics Graph.empty
    ⟨ "p2", "Bob", "bob@example.com", "Manager", "EM", "Staff",
      "2019-05-05", true⟩).1
    ("hire_date", Val.date "2019-05-05")
    ((node_upsert_field_semantics Graph.empty
      ⟨ "p2", "Bob", "bob@example.com", "Manager", "EM", "Staff",
        "2019-05-05", true⟩).2.1 (by decide))

/-- C6: relationship upsert never requires the endpoints to pre-exist: an
absent endpoint is created as a bare placeholder carrying only its label
and id property, both endpoints exist afterward, and a later person upsert
with the same id updates the matching node in place — the node count for
that key is unchanged and its fields are enriched. -/
theorem placeholder_endpoints (g : Graph) (r : Relationship) (p : Person) :
    (¬ NodeExists g r.from_type r.from_id →
      findNodeProps (merge_relationship g r) r.from_type r.from_id
        = some [("id", Val.str r.from_id)]) ∧
    (¬ NodeExists g r.to_type r.to_id →
      findNodeProps (merge_relationship g r) r.to_type r.to_id
        = some [("id", Val.str r.to_id)]) ∧
    NodeExists (merge_relationship g r) r.from_type r.from_id ∧
    NodeExists (merge_relationship g r) r.to_type r.to_id ∧
    (∀ g2 : Graph, NodeExists g2 "Person" p.id →
      countNodes (merge_person g2 p none) "Person" p.id =
        countNodes g2 "Person" p.id) ∧
    (∀ g2 : Graph,
      getNodeProp (merge_person g2 p none) "Person" p.id "name"
        = some (Val.str p.name)) := by
  obtain ⟨hex1, hex2⟩ := merge_relationship_nodeExists g r
  refine ⟨?_, ?_, hex1, hex2, ?_, ?_⟩
  · intro hne
    have h1 := findNodeProps_mergeNode_of_not_exists g r.from_type r.from_id hne
    cases heq : bidirLookup r.type with
    | none =>
        simp only [merge_relationship, heq]
        rw [findNodeProps_mergeEdge]
        exact findNodeProps_mergeNode_stable _ _ _ _ _ _ h1
    | some M =>
        simp only [merge_relationship, heq, ite_self]
        rw [findNodeProps_mergeEdge]
        apply findNodeProps_mergeNode_stable
        apply findNodeProps_mergeNode_stable
        rw [findNodeProps_mergeEdge]
        exact findNodeProps_mergeNode_stable _ _ _ _ _ _ h1
  · intro hne
    have h1 := findNodeProps_two_mergeNode_to g r.from_type r.from_id
      r.to_type r.to_id hne
    cases heq : bidirLookup r.type with
    | none =>
        simp only [merge_relationship, heq]
        rw [findNodeProps_mergeEdge]
        exact h1
    | some M =>
        simp only [merge_relationship, heq, ite_self]
        rw [findNodeProps_mergeEdge]
        apply findNodeProps_mergeNode_stable
        apply findNodeProps_mergeNode_stable
        rw [findNodeProps_mergeEdge]
        exact h1
  · intro g2 h
    exact merge_person_node_count_of_exists g2 p h
  · intro g2
    have hmem : ("name", Val.str p.name) ∈ personSetFields p := by
      unfold personSetFields
      split <;> exact List.mem_cons_self _ _
    exact merge_person_node_getProp g2 p ("name", Val.str p.name) hmem

/-- C6 witness: a COLLABORATOR upsert on the empty store creates both bare
placeholders, and a later person upsert on a store holding the p9
placeholder keeps a single node for the key. -/
theorem placeholder_endpoints_witness :
    findNodeProps (merge_relationship Graph.empty
        ⟨ "COLLABORATOR", "p9", "r9", "Person", "Repository", []⟩)
      "Person" "p9" = some [("id", Val.str "p9")] ∧
    countNodes
      (merge_person (merge_relationship Graph.empty
          ⟨ "COLLABORATOR", "p9", "r9", "Person", "Repository", []⟩)
        ⟨ "p9", "Eve", "eve@example.com", "Engineer", "IC", "Junior",
          "2021-01-01", false⟩ none)
      "Person" "p9" =
      countNodes (merge_relationship Graph.empty
          ⟨ "COLLABORATOR", "p9", "r9", "Person", "Repository", []⟩)
        "Person" "p9" := by
  constructor
  · exact (placeholder_endpoints Graph.empty
      ⟨ "COLLABORATOR", "p9", "r9", "Person", "Repository", []⟩
      ⟨ "p9", "Eve", "eve@example.com", "Engineer", "IC", "Junior",
        "2021-01-01", false⟩).1 (by decide)
  · exact (placeholder_endpoints Graph.empty
      ⟨ "COLLABORATOR", "p9", "r9", "Person", "Repository", []⟩
      ⟨ "p9", "Eve", "eve@example.com", "Engineer", "IC", "Junior",
        "2021-01-01", false⟩).2.2.2.2.1
      (merge_relationship Graph.empty
        ⟨ "COLLABORATOR", "p9", "r9", "Person", "Repository", []⟩)
      (by decide)

/-- C1 (code evaluated at the failing input): re-upserting the same
COLLABORATOR tuple with a different property bag creates a second parallel
forward edge and a second mirror edge — the MERGE pattern includes the
property bag, so the existing permission=WRITE edge does not match the
permission=READ pattern and a new edge is written instead of updating. -/
theorem property_update_duplicates_edges :
    2 = countEdges
      (merge_relationship
        (merge_relationship Graph.empty
          ⟨ "COLLABORATOR", "team_x", "repo_y", "Team", "Repository",
            [("permission", Val.str "WRITE"),
             ("granted_at", Val.str "2024-01-01")]⟩)
        ⟨ "COLLABORATOR", "team_x", "repo_y", "Team", "Repository",
          [("permission", Val.str "READ")]⟩)
      "COLLABORATOR" "Team" "team_x" "Repository" "repo_y" ∧
    2 = countEdges
      (merge_relationship
        (merge_relationship Graph.empty
          ⟨ "COLLABORATOR", "team_x", "repo_y", "Team", "Repository",
            [("permission", Val.str "WRITE"),
             ("granted_at", Val.str "2024-01-01")]⟩)
        ⟨ "COLLABORATOR", "team_x", "repo_y", "Team", "Repository",
          [("permission", Val.str "READ")]⟩)
      "COLLABORATOR" "Repository" "repo_y" "Team" "team_x" := by
  decide

/-- C8: with the layer list omitted, `create_constraints` issues every
layer's constraint declarations; a store failure whose message contains
"already exists" (case-insensitively) is suppressed and the loop
continues, while every other store failure propagates unchanged and
aborts the loop. -/
theorem constraint_registrar_spec :
    (∀ lc ∈ all_constraints, ∀ c ∈ lc.2, c ∈ constraintsFor none) ∧
    (∀ (store : String → Except String Unit) (c : String) (rest : List String)
        (e : String),
      store c = Except.error e →
      ((isAlreadyExists e = true →
          runConstraints store (c :: rest) = runConstraints store rest) ∧
       (isAlreadyExists e = false →
          runConstraints store (c :: rest) = Except.error e))) ∧
    (∀ store : String → Except String Unit,
      create_constraints store none =
        runConstraints store ((all_constraints.map Prod.snd).flatten)) := by
  refine ⟨?_, ?_, fun store => rfl⟩
  · intro lc hlc c hc
    show c ∈ (all_constraints.map Prod.snd).flatten
    exact List.mem_flatten.mpr ⟨lc.2, List.mem_map_of_mem _ hlc, hc⟩
  · intro store c rest e hstore
    constructor
    · intro hae
      show (match store c with
        | Except.ok _ => runConstraints store rest
        | Except.error e =>
            if isAlreadyExists e then runConstraints store rest
            else Except.error e) = runConstraints store rest
      rw [hstore]
      simp [hae]
    · intro hae
      show (match store c with
        | Except.ok _ => runConstraints store rest
        | Except.error e =>
            if isAlreadyExists e then runConstraints store rest
            else Except.error e) = Except.error e
      rw [hstore]
      simp [hae]

/-- C8 witness: the suppression and propagation behaviour instantiated on
concrete stores, plus a concrete layer-1 constraint reaching the full
list. -/
theorem constraint_registrar_spec_witness :
    runConstraints (fun _ => Except.error "Constraint already exists") ["c1"] =
      runConstraints (fun _ => Except.error "Constraint already exists") [] ∧
    runConstraints (fun _ => Except.error "connection refused") ["c1"] =
      Except.error "connection refused" ∧
    "CREATE CONSTRAINT person_id IF NOT EXISTS FOR (p:Person) REQUIRE p.id IS UNIQUE"
      ∈ constraintsFor none := by
  refine ⟨?_, ?_, ?_⟩
  · exact (constraint_registrar_spec.2.1
      (fun _ => Except.error "Constraint already exists") "c1" []
      "Constraint already exists" rfl).1 (by decide)
  · exact (constraint_registrar_spec.2.1
      (fun _ => Except.error "connection refused") "c1" []
      "connection refused" rfl).2 (by decide)
  · exact constraint_registrar_spec.1
      (1, [ "CREATE CONSTRAINT person_id IF NOT EXISTS FOR (p:Person) REQUIRE p.id IS UNIQUE",
            "CREATE CONSTRAINT team_id IF NOT EXISTS FOR (t:Team) REQUIRE t.id IS UNIQUE",
            "CREATE CONSTRAINT identity_id IF NOT EXISTS FOR (i:IdentityMapping) REQUIRE i.id IS UNIQUE" ])
      (by decide)
      "CREATE CONSTRAINT person_id IF NOT EXISTS FOR (p:Person) REQUIRE p.id IS UNIQUE"
      (by decide)

/-- C9: a node upsert with a relationship list upserts the relationships
strictly after the node write and in the order given; if the k-th
relationship write fails, the node write and the first k-1 relationship
writes remain committed (the error carries exactly that state), the
remaining relationships are never attempted (the result does not depend on
them), and nothing is rolled back; when every write succeeds the cascade
equals the in-order fold of `merge_relationship` over the list, after the
node write. -/
theorem cascade_after_node_write (f : Graph → Relationship → Except String Graph)
    (g : Graph) (p : Person) (rs1 : List Relationship) (r : Relationship)
    (rs2 : List Relationship) :
    (∀ (gk : Graph) (e : String),
      mergeRelsExc f (merge_person_node g p) rs1 = Except.ok gk →
      f gk r = Except.error e →
      merge_person_exc f g p (some (rs1 ++ r :: rs2)) = Except.error (e, gk)) ∧
    ((∀ g0 r0, f g0 r0 = Except.ok (merge_relationship g0 r0)) →
      merge_person_exc f g p (some (rs1 ++ r :: rs2)) =
        Except.ok (List.foldl merge_relationship (merge_person_node g p)
          (rs1 ++ r :: rs2))) := by
  constructor
  · intro gk e h1 h2
    show mergeRelsExc f (merge_person_node g p) (rs1 ++ r :: rs2)
      = Except.error (e, gk)
    rw [mergeRelsExc_append_ok f (merge_person_node g p) gk rs1 (r :: rs2) h1]
    exact mergeRelsExc_cons_err f gk r rs2 e h2
  · intro hok
    show mergeRelsExc f (merge_person_node g p) (rs1 ++ r :: rs2) = _
    exact mergeRelsExc_all_ok f hok (merge_person_node g p) (rs1 ++ r :: rs2)

/-- C9 witness: with a store that rejects exactly the BAD relationship,
the cascade on [bad, good] fails at the first element, committing the node
write and skipping the rest. -/
theorem cascade_after_node_write_witness :
    merge_person_exc
      (fun g0 r0 => if r0.type = "BAD" then Except.error "boom"
        else Except.ok (merge_relationship g0 r0))
      Graph.empty
      ⟨ "p1", "Alice", "alice@example.com", "Engineer", "IC", "Senior",
        "2020-01-01", false⟩
      (some [⟨ "BAD", "p1", "t1", "Person", "Team", []⟩,
             ⟨ "MEMBER_OF", "p1", "t1", "Person", "Team", []⟩])
      = Except.error ("boom",
          merge_person_node Graph.empty
            ⟨ "p1", "Alice", "alice@example.com", "Engineer", "IC", "Senior",
              "2020-01-01", false⟩) :=
  (cascade_after_node_write
    (fun g0 r0 => if r0.type = "BAD" then Except.error "boom"
      else Except.ok (merge_relationship g0 r0))
    Graph.empty
    ⟨ "p1", "Alice", "alice@example.com", "Engineer", "IC", "Senior",
      "2020-01-01", false⟩
    [] ⟨ "BAD", "p1", "t1", "Person", "Team", []⟩
    [⟨ "MEMBER_OF", "p1", "t1", "Person", "Team", []⟩]).1
    (merge_person_node Graph.empty
      ⟨ "p1", "Alice", "alice@example.com", "Engineer", "IC", "Senior",
        "2020-01-01", false⟩)
    "boom" rfl rfl
